import Mathlib

/-!
Verification of the akr_wayland key-repeat daemon core.

This file gives a shallow embedding of the decision engine
(`Config::should_repeat_key`, src/config.rs), the configuration validator
(`Config::validate`), the decision cache (`KeyRepeater::should_repeat_cached`,
src/services/key_repeater.rs) and the per-key repeat scheduler
(`KeyRepeater::handle_key_event` and friends), and proves the behavioural
properties stated in the specification about them.

Machine integers are modelled as `Nat` (the 64-bit hashes never overflow any
operation used here); Rust `HashSet`/`DashMap` values are modelled as lists
with the membership/any/insert-if-absent operations actually used by the code;
the 64-bit `DefaultHasher` hash functions and the static
`KeyNameToEvdevCode::reverse_translate` table are threaded through as explicit
function parameters.
-/

namespace AkrWayland

/-! ### Strings and case folding

Rust `str::to_lowercase` is modelled character-wise with `Char.toLower`, and
`str::contains` as substring containment over the character list. -/

/-- Model of Rust `String::to_lowercase`. -/
def strLower (s : String) : String := ⟨s.data.map Char.toLower⟩

/-- The title-lowering used inside `Config::should_repeat_key`: the code only
lowercases when the title has at least one uppercase character
(the `Cow` optimisation in src/config.rs). -/
def condLowerTitle (s : String) : String :=
  if s.data.any Char.isUpper then strLower s else s

/-- `charsStartsWith pat s` holds when `pat` is an initial segment of `s`. -/
def charsStartsWith : List Char → List Char → Bool
  | [], _ => true
  | _ :: _, [] => false
  | p :: ps, c :: cs => p == c && charsStartsWith ps cs

/-- `charsContains pat s` holds when `pat` occurs contiguously in `s`:
model of Rust `str::contains`. -/
def charsContains (pat : List Char) : List Char → Bool
  | [] => charsStartsWith pat []
  | c :: cs => charsStartsWith pat (c :: cs) || charsContains pat cs

/-- `strContainsSub s pat`: `s` contains `pat` as a substring. -/
def strContainsSub (s pat : String) : Bool := charsContains pat.data s.data

theorem toLower_of_not_isUpper {c : Char} (h : c.isUpper = false) :
    c.toLower = c := by
  have hbound : ¬ (65 ≤ c.toNat ∧ c.toNat ≤ 90) := by
    rintro ⟨h1, h2⟩
    have : c.isUpper = true := by
      simp only [Char.isUpper, Bool.and_eq_true, decide_eq_true_eq]
      constructor
      · rw [ge_iff_le, UInt32.le_def, BitVec.le_def]; exact h1
      · rw [UInt32.le_def, BitVec.le_def]; exact h2
    rw [this] at h
    exact Bool.noConfusion h
  simp only [Char.toLower]
  rw [if_neg hbound]

/-- When a string has no uppercase character, the conditional lowering of
`should_repeat_key` agrees with full lowering. -/
theorem condLowerTitle_eq_strLower (s : String) : condLowerTitle s = strLower s := by
  unfold condLowerTitle
  by_cases h : s.data.any Char.isUpper
  · rw [if_pos h]
  · rw [if_neg h]
    have hall : ∀ c ∈ s.data, c.isUpper = false := by
      intro c hc
      by_contra hne
      exact h (List.any_eq_true.mpr ⟨c, hc, by revert hne; cases c.isUpper <;> simp⟩)
    have hmap : s.data.map Char.toLower = s.data := by
      have h1 : s.data.map Char.toLower = s.data.map id :=
        List.map_congr_left fun c hc => toLower_of_not_isUpper (hall c hc)
      rw [h1, List.map_id]
    unfold strLower
    rw [hmap]

/-! ### Configuration data model (src/config.rs) -/

/-- One entry of the `mappings` array: a key name plus its allowed modifier
names (`KeyMapping` in src/config.rs). -/
structure KeyMapping where
  key : String
  modifiers : List String
deriving DecidableEq, Repr

/-- `LoggingConfig` in src/config.rs. -/
structure LoggingConfig where
  level : String
  format : String
  filter : String
deriving DecidableEq, Repr

/-- `InputConfig` in src/config.rs. -/
structure InputConfig where
  devicePath : String
deriving DecidableEq, Repr

/-- `RepeatConfig` in src/config.rs. -/
structure RepeatConfig where
  repeatDelayMs : Nat
  repeatToggleKey : Option String
deriving DecidableEq, Repr

/-- `WindowConfig` in src/config.rs. -/
structure WindowConfig where
  detectionMode : String
  pollingIntervalMs : Nat
  windowTitlePatterns : List String
deriving DecidableEq, Repr

/-- `Config` in src/config.rs.  The two derived index fields `key_set` and
`pattern_set_lower` (filled in by `build_optimization_indexes`, which is always
run before `should_repeat_key` is ever called) are modelled as the functions
`Config.keySet` and `Config.patternSetLower` below. -/
structure Config where
  logging : LoggingConfig
  input : InputConfig
  repeatCfg : RepeatConfig
  window : WindowConfig
  mappings : List KeyMapping
deriving DecidableEq, Repr

/-- The `key_set` index built by `build_optimization_indexes`: the set of
mapped key names.  A `HashSet` is only queried through `contains` here, so a
list models it faithfully. -/
def Config.keySet (c : Config) : List String :=
  c.mappings.map (fun m => m.key)

/-- The `pattern_set_lower` index built by `build_optimization_indexes`:
the window title patterns, lowercased. -/
def Config.patternSetLower (c : Config) : List String :=
  c.window.windowTitlePatterns.map strLower

/-- The `modifiers_match` expression inside `Config::should_repeat_key`:
an empty allowed list accepts only an empty pressed set; a non-empty allowed
list accepts an empty pressed set or any pressed set wholly contained in it. -/
def modifiersMatchB (allowed pressed : List String) : Bool :=
  if allowed.isEmpty then pressed.isEmpty
  else pressed.isEmpty || pressed.all (fun m => allowed.contains m)

/-- The window-pattern check of the mapping-scan branch of
`Config::should_repeat_key` (src/config.rs lines 224-241): empty pattern list
accepts every window, otherwise the (conditionally lowercased) title must
contain one of the pre-lowercased patterns. -/
def Config.windowCheck (c : Config) (windowTitle : String) : Bool :=
  if c.window.windowTitlePatterns.isEmpty then true
  else c.patternSetLower.any (fun pat => strContainsSub (condLowerTitle windowTitle) pat)

/-- The mapping-scan loop in the modifier branch of
`Config::should_repeat_key` (src/config.rs lines 204-243): find the first
mapping for `key` whose modifier rule accepts `modifiers`; on a hit, decide by
the window patterns; otherwise keep scanning, and return `false` at the end. -/
def Config.shouldRepeatLoop (c : Config) (key : String) (modifiers : List String)
    (windowTitle : String) : List KeyMapping → Bool
  | [] => false
  | mapping :: rest =>
    if mapping.key == key then
      if modifiersMatchB mapping.modifiers modifiers then c.windowCheck windowTitle
      else c.shouldRepeatLoop key modifiers windowTitle rest
    else c.shouldRepeatLoop key modifiers windowTitle rest

/-- `Config::should_repeat_key` (src/config.rs lines 177-246): the single
decision function combining key presence, modifier matching and window-pattern
matching. -/
def Config.shouldRepeatKey (c : Config) (key : String) (modifiers : List String)
    (windowTitle : String) : Bool :=
  if !(c.keySet.contains key) then false
  else if modifiers.isEmpty then
    if c.patternSetLower.isEmpty then true
    else c.patternSetLower.any (fun pat => strContainsSub (condLowerTitle windowTitle) pat)
  else c.shouldRepeatLoop key modifiers windowTitle c.mappings

/-- The inner modifier loop of `Config::validate`: the first modifier name
outside {ctrl, alt, shift, super} is rejected.  `i` is the zero-based mapping
index (error messages use `i + 1` as in the source). -/
def validateModifiers (i : Nat) : List String → Except String Unit
  | [] => .ok ()
  | m :: rest =>
    if m = "ctrl" ∨ m = "alt" ∨ m = "shift" ∨ m = "super" then
      validateModifiers i rest
    else .error ("invalid modifier " ++ m ++ " in mapping #" ++ toString (i + 1))

/-- The mapping loop of `Config::validate`: an empty key or an unknown
modifier name in any mapping is rejected. -/
def validateMappings : Nat → List KeyMapping → Except String Unit
  | _, [] => .ok ()
  | i, m :: rest =>
    if m.key = "" then .error ("empty key in mapping #" ++ toString (i + 1))
    else
      match validateModifiers i m.modifiers with
      | .ok () => validateMappings (i + 1) rest
      | .error e => .error e

/-- `Config::validate` (src/config.rs lines 129-174). -/
def Config.validate (c : Config) : Except String Unit :=
  if ¬(c.logging.level = "trace" ∨ c.logging.level = "debug" ∨ c.logging.level = "info" ∨
      c.logging.level = "warn" ∨ c.logging.level = "error") then
    .error ("invalid logging level: " ++ c.logging.level)
  else if ¬(c.logging.format = "pretty" ∨ c.logging.format = "json") then
    .error ("invalid logging format: " ++ c.logging.format)
  else if c.repeatCfg.repeatDelayMs = 0 then
    .error "repeat_delay_ms must be greater than 0"
  else if ¬(c.window.detectionMode = "dbus" ∨ c.window.detectionMode = "polling") then
    .error ("invalid window detection mode: " ++ c.window.detectionMode)
  else if c.window.pollingIntervalMs < 100 then
    .error "polling_interval_ms must be at least 100"
  else validateMappings 0 c.mappings

/-! ### Basic facts about the decision function -/

/-- Membership in the `key_set` index coincides with the mapping list holding
an entry for the key. -/
theorem keySet_contains_eq (c : Config) (key : String) :
    c.keySet.contains key = c.mappings.any (fun m => m.key == key) := by
  unfold Config.keySet
  induction c.mappings with
  | nil => rfl
  | cons m rest ih =>
    simp only [List.map_cons, List.contains_cons, List.any_cons, ih]
    rw [Bool.beq_comm]

/-- The pre-lowercased pattern index is empty exactly when the configured
pattern list is. -/
theorem patternSetLower_isEmpty (c : Config) :
    c.patternSetLower.isEmpty = c.window.windowTitlePatterns.isEmpty := by
  unfold Config.patternSetLower
  cases c.window.windowTitlePatterns <;> rfl

/-- The mapping-scan loop factors into "some mapping for the key accepts the
pressed modifiers" and the (mapping-independent) window check. -/
theorem shouldRepeatLoop_eq (c : Config) (key : String) (mods : List String)
    (title : String) (L : List KeyMapping) :
    c.shouldRepeatLoop key mods title L =
      (L.any (fun m => m.key == key && modifiersMatchB m.modifiers mods) &&
        c.windowCheck title) := by
  induction L with
  | nil => rfl
  | cons m rest ih =>
    rcases hk : m.key == key with _ | _
    · simp [Config.shouldRepeatLoop, hk, ih]
    · rcases hm : modifiersMatchB m.modifiers mods with _ | _
      · simp [Config.shouldRepeatLoop, hk, hm, ih]
      · simp [Config.shouldRepeatLoop, hk, hm]

/-- `should_repeat_key` factors into the key/modifier part and the window
part. -/
theorem shouldRepeatKey_eq (c : Config) (key : String) (mods : List String)
    (title : String) :
    c.shouldRepeatKey key mods title =
      (c.mappings.any (fun m => m.key == key && modifiersMatchB m.modifiers mods) &&
        c.windowCheck title) := by
  unfold Config.shouldRepeatKey
  rcases hc : c.keySet.contains key with _ | _
  · have hc' := hc
    rw [keySet_contains_eq] at hc'
    have hall : c.mappings.any (fun m => m.key == key && modifiersMatchB m.modifiers mods)
        = false := by
      rw [List.any_eq_false]
      intro m hm
      have h1 := (List.any_eq_false.mp hc') m hm
      intro hcontra
      simp only [Bool.and_eq_true] at hcontra
      exact h1 hcontra.1
    simp [hc, hall]
  · rcases hmods : mods.isEmpty with _ | _
    · simp only [hc, Bool.not_true, Bool.false_eq_true, if_false, hmods, Bool.false_eq_true,
        if_false]
      exact shouldRepeatLoop_eq c key mods title c.mappings
    · have hmm : ∀ m : KeyMapping, modifiersMatchB m.modifiers mods = true := by
        intro m
        unfold modifiersMatchB
        rcases hme : m.modifiers.isEmpty with _ | _ <;> simp [hmods, hme]
      have hany : c.mappings.any (fun m => m.key == key && modifiersMatchB m.modifiers mods)
          = c.mappings.any (fun m => m.key == key) := by
        induction c.mappings with
        | nil => rfl
        | cons m rest ih => simp [List.any_cons, hmm m, ih]
      rw [hany, ← keySet_contains_eq, hc, Bool.true_and]
      simp only [hc, Bool.not_true, Bool.false_eq_true, if_false, hmods, if_true]
      unfold Config.windowCheck
      rw [← patternSetLower_isEmpty]

/-- When the mapping list has exactly one entry for a key, any scan over the
list for that key collapses to that entry. -/
theorem any_unique (p : KeyMapping → Bool) (m : KeyMapping) :
    ∀ L : List KeyMapping, m ∈ L → (∀ m' ∈ L, m'.key = m.key → m' = m) →
      L.any (fun m' => m'.key == m.key && p m') = p m := by
  intro L
  induction L with
  | nil => intro h _; exact absurd h (List.not_mem_nil m)
  | cons a rest ih =>
    intro hm hu
    by_cases ha : a = m
    · subst ha
      simp only [List.any_cons, beq_self_eq_true, Bool.true_and]
      rcases hp : p a with _ | _
      · simp only [Bool.false_or]
        rw [List.any_eq_false]
        intro m' hm'
        intro hcontra
        simp only [Bool.and_eq_true, beq_iff_eq] at hcontra
        have he := hu m' (List.mem_cons_of_mem a hm') hcontra.1
        rw [he, hp] at hcontra
        exact Bool.noConfusion hcontra.2
      · simp
    · have hmr : m ∈ rest := by
        rcases List.mem_cons.mp hm with h | h
        · exact absurd h.symm ha
        · exact h
      have hak : (a.key == m.key) = false := by
        rw [beq_eq_false_iff_ne]
        intro he
        exact ha (hu a (List.mem_cons_self a rest) he)
      simp only [List.any_cons, hak, Bool.false_and, Bool.false_or]
      exact ih hmr (fun m' h' he => hu m' (List.mem_cons_of_mem a h') he)

/-- Claim C1: modifier matching rule of the decision function.  For a config
whose mapping list has exactly one entry `m` for its key: with an empty
`allowed_modifiers` list the decision is true only with zero pressed
modifiers; with a non-empty list it is true with zero pressed modifiers or
with every pressed modifier contained in the allowed list (in both cases
conjoined with the window check); and any pressed modifier outside the
allowed list forces the decision to false. -/
theorem should_repeat_key_modifier_rule (c : Config) (m : KeyMapping)
    (mods : List String) (title : String)
    (hm : m ∈ c.mappings) (hu : ∀ m' ∈ c.mappings, m'.key = m.key → m' = m) :
    (m.modifiers = [] →
      c.shouldRepeatKey m.key mods title = (mods.isEmpty && c.windowCheck title)) ∧
    (m.modifiers ≠ [] →
      c.shouldRepeatKey m.key mods title =
        ((mods.isEmpty || mods.all (fun x => m.modifiers.contains x)) &&
          c.windowCheck title)) ∧
    (∀ x, x ∈ mods → x ∉ m.modifiers → c.shouldRepeatKey m.key mods title = false) := by
  have h0 : c.shouldRepeatKey m.key mods title =
      (modifiersMatchB m.modifiers mods && c.windowCheck title) := by
    rw [shouldRepeatKey_eq]
    rw [any_unique (fun m' => modifiersMatchB m'.modifiers mods) m c.mappings hm hu]
  refine ⟨?_, ?_, ?_⟩
  · intro he
    rw [h0]
    unfold modifiersMatchB
    rw [he]
    simp
  · intro hne
    rw [h0]
    unfold modifiersMatchB
    have h1 : m.modifiers.isEmpty = false := by
      cases hmo : m.modifiers with
      | nil => exact absurd hmo hne
      | cons a l => rfl
    simp [h1]
  · intro x hx hnx
    rw [h0]
    have hmods : mods.isEmpty = false := by
      cases mods with
      | nil => exact absurd hx (List.not_mem_nil x)
      | cons _ _ => rfl
    unfold modifiersMatchB
    rcases hmo : m.modifiers.isEmpty with _ | _
    · have hall : mods.all (fun y => m.modifiers.contains y) = false := by
        rw [List.all_eq_false]
        refine ⟨x, hx, ?_⟩
        intro hcontra
        exact hnx (List.elem_iff.mp hcontra)
      simp only [hmo, Bool.false_eq_true, if_false, hmods, Bool.false_or, hall,
        Bool.false_and]
    · simp [hmods, hmo]

/-- A concrete configuration with the single mapping
`{key = "space", allowed_modifiers = [ctrl, alt]}` and no window patterns
(the worked example of the specification). -/
def cfgSpace : Config :=
  ⟨⟨"info", "pretty", "ahk_rust=info"⟩, ⟨"auto"⟩, ⟨50, none⟩, ⟨"dbus", 1000, []⟩,
   [⟨"space", ["ctrl", "alt"]⟩]⟩

theorem should_repeat_key_modifier_rule_witness :
    cfgSpace.shouldRepeatKey "space" ["ctrl", "shift"] "any" = false :=
  (should_repeat_key_modifier_rule cfgSpace ⟨"space", ["ctrl", "alt"]⟩
      ["ctrl", "shift"] "any" (by decide) (by decide)).2.2 "shift" (by decide) (by decide)

/-! ### Claim C6: window-pattern matching -/

/-- The window-pattern condition as the specification words it: an empty
pattern set accepts every title, otherwise the case-folded title must contain
at least one case-folded pattern as a substring. -/
def windowMatchSpec (c : Config) (title : String) : Bool :=
  c.window.windowTitlePatterns.isEmpty ||
  c.window.windowTitlePatterns.any
    (fun pat => strContainsSub (strLower title) (strLower pat))

/-- The key/modifier component of the decision, separated out of
`should_repeat_key` by `shouldRepeatKey_eq`. -/
def keyModMatch (c : Config) (key : String) (mods : List String) : Bool :=
  c.mappings.any (fun m => m.key == key && modifiersMatchB m.modifiers mods)

/-- The source window check equals the specification's wording of it. -/
theorem windowCheck_eq_spec (c : Config) (title : String) :
    c.windowCheck title = windowMatchSpec c title := by
  unfold Config.windowCheck windowMatchSpec
  rcases he : c.window.windowTitlePatterns.isEmpty with _ | _
  · simp only [he, Bool.false_eq_true, if_false, Bool.false_or, Config.patternSetLower,
      List.any_map, Function.comp_def, condLowerTitle_eq_strLower]
  · simp [he]

/-- Claim C6: window-pattern matching rule.  Every decision of
`should_repeat_key` factors through the window-pattern condition; an empty
pattern set accepts every title, and otherwise the condition holds exactly
when the case-folded title contains at least one case-folded pattern as a
substring. -/
theorem should_repeat_key_window_pattern_rule (c : Config) (key : String)
    (mods : List String) (title : String) :
    c.shouldRepeatKey key mods title =
      (keyModMatch c key mods && windowMatchSpec c title) ∧
    (c.window.windowTitlePatterns = [] → windowMatchSpec c title = true) ∧
    (windowMatchSpec c title = true ↔
      (c.window.windowTitlePatterns = [] ∨
        ∃ pat ∈ c.window.windowTitlePatterns,
          strContainsSub (strLower title) (strLower pat) = true)) := by
  refine ⟨?_, ?_, ?_⟩
  · rw [shouldRepeatKey_eq, windowCheck_eq_spec]
    rfl
  · intro h
    unfold windowMatchSpec
    rw [h]
    rfl
  · unfold windowMatchSpec
    simp [List.isEmpty_iff, List.any_eq_true]

/-- A concrete configuration with the single bare mapping for "j" and the
window pattern list ["nvim"] (Scenario A/B of the specification). -/
def cfgNvim : Config :=
  ⟨⟨"info", "pretty", "ahk_rust=info"⟩, ⟨"auto"⟩, ⟨50, none⟩, ⟨"dbus", 1000, ["nvim"]⟩,
   [⟨"j", []⟩]⟩

theorem should_repeat_key_window_pattern_rule_witness :
    windowMatchSpec cfgSpace "any" = true ∧
    cfgNvim.shouldRepeatKey "j" [] "browser" =
      (keyModMatch cfgNvim "j" [] && windowMatchSpec cfgNvim "browser") :=
  ⟨(should_repeat_key_window_pattern_rule cfgSpace "x" [] "any").2.1 rfl,
   (should_repeat_key_window_pattern_rule cfgNvim "j" [] "browser").1⟩

/-! ### Claim C9: configuration validation -/

/-- The set of conditions the claim says `validate` checks (and nothing
else): known logging level, known logging format, known window detection
mode, non-zero repeat delay, polling interval at least 100, and only known
modifier names in mappings. -/
def validatePassClaim (c : Config) : Bool :=
  (["trace", "debug", "info", "warn", "error"].contains c.logging.level) &&
  (["pretty", "json"].contains c.logging.format) &&
  (["dbus", "polling"].contains c.window.detectionMode) &&
  (decide (c.repeatCfg.repeatDelayMs ≠ 0)) &&
  (decide (100 ≤ c.window.pollingIntervalMs)) &&
  c.mappings.all (fun m =>
    m.modifiers.all (fun x => ["ctrl", "alt", "shift", "super"].contains x))

/-- The claim's condition list amended with the one check it omits: no
mapping may have an empty key. -/
def validatePassAmended (c : Config) : Bool :=
  validatePassClaim c && c.mappings.all (fun m => !(m.key == ""))

/-- An otherwise fully valid configuration whose only mapping has an empty
key: `validate` rejects it although every condition named by the claim
holds. -/
def cfgEmptyKey : Config :=
  ⟨⟨"info", "pretty", "ahk_rust=info"⟩, ⟨"auto"⟩, ⟨50, none⟩, ⟨"dbus", 1000, []⟩,
   [⟨"", []⟩]⟩

/-- Claim C9 as stated is false: `cfgEmptyKey` satisfies every condition the
claim lists, yet `validate` returns an error (the empty-key check the claim
omits). -/
theorem validate_claim_counterexample :
    validatePassClaim cfgEmptyKey = true ∧
    Config.validate cfgEmptyKey ≠ Except.ok () := by
  constructor
  · decide
  · intro h
    have hv : Config.validate cfgEmptyKey = Except.error "empty key in mapping #1" := rfl
    rw [hv] at h
    exact Except.noConfusion h

/-- The inner modifier loop accepts exactly the modifier lists whose every
element is one of ctrl, alt, shift, super. -/
theorem validateModifiers_ok (i : Nat) (ms : List String) :
    validateModifiers i ms = .ok () ↔
      ms.all (fun x => ["ctrl", "alt", "shift", "super"].contains x) = true := by
  induction ms with
  | nil => simp [validateModifiers]
  | cons x rest ih =>
    unfold validateModifiers
    by_cases hx : x = "ctrl" ∨ x = "alt" ∨ x = "shift" ∨ x = "super"
    · rw [if_pos hx]
      have hcx : (["ctrl", "alt", "shift", "super"].contains x) = true := by
        rcases hx with h | h | h | h <;> rw [h] <;> decide
      rw [ih]
      simp only [List.all_cons, hcx, Bool.true_and]
    · rw [if_neg hx]
      push_neg at hx
      have hcx : (["ctrl", "alt", "shift", "super"].contains x) = false := by
        simp [List.contains_cons, hx.1, hx.2.1, hx.2.2.1, hx.2.2.2]
      constructor
      · intro h; exact Except.noConfusion h
      · intro h
        simp only [List.all_cons, hcx, Bool.false_and] at h
        exact Bool.noConfusion h

/-- The mapping loop accepts exactly the mapping lists whose every entry has
a non-empty key and only known modifier names. -/
theorem validateMappings_ok (L : List KeyMapping) : ∀ i,
    validateMappings i L = .ok () ↔
      L.all (fun m => !(m.key == "") &&
        m.modifiers.all (fun x => ["ctrl", "alt", "shift", "super"].contains x)) = true := by
  induction L with
  | nil => intro i; simp [validateMappings]
  | cons m rest ih =>
    intro i
    unfold validateMappings
    by_cases hk : m.key = ""
    · rw [if_pos hk]
      have hkb : (m.key == "") = true := beq_iff_eq.mpr hk
      constructor
      · intro h; exact Except.noConfusion h
      · intro h
        simp only [List.all_cons, hkb, Bool.not_true, Bool.false_and] at h
        exact Bool.noConfusion h
    · rw [if_neg hk]
      have hkb : (m.key == "") = false := beq_eq_false_iff_ne.mpr hk
      rcases hv : validateModifiers i m.modifiers with e | u
      · have hmods : m.modifiers.all
            (fun x => ["ctrl", "alt", "shift", "super"].contains x) = false := by
          rcases hall : m.modifiers.all
              (fun x => ["ctrl", "alt", "shift", "super"].contains x) with _ | _
          · rfl
          · rw [← validateModifiers_ok i, hv] at hall
            exact Except.noConfusion hall
        constructor
        · intro h; exact Except.noConfusion h
        · intro h
          simp only [List.all_cons, hkb, Bool.not_false, Bool.true_and, hmods,
            Bool.false_and] at h
          exact Bool.noConfusion h
      · cases u
        have hmods := (validateModifiers_ok i m.modifiers).mp hv
        rw [ih (i + 1)]
        simp only [List.all_cons, hkb, Bool.not_false, Bool.true_and, hmods]

/-- Claim C9, amended: `validate` succeeds exactly when the logging level,
logging format and window detection mode are known, the repeat delay is
non-zero, the polling interval is at least 100, every mapping's modifiers are
among ctrl/alt/shift/super, and — the condition the claim omits — no mapping
key is the empty string. -/
theorem validate_ok_iff_amended (c : Config) :
    Config.validate c = Except.ok () ↔ validatePassAmended c = true := by
  unfold Config.validate validatePassAmended validatePassClaim
  have e1 : (["trace", "debug", "info", "warn", "error"].contains c.logging.level = true) ↔
      (c.logging.level = "trace" ∨ c.logging.level = "debug" ∨ c.logging.level = "info" ∨
        c.logging.level = "warn" ∨ c.logging.level = "error") := by
    rw [List.elem_iff]
    simp
  have e2 : (["pretty", "json"].contains c.logging.format = true) ↔
      (c.logging.format = "pretty" ∨ c.logging.format = "json") := by
    rw [List.elem_iff]
    simp
  have e3 : (["dbus", "polling"].contains c.window.detectionMode = true) ↔
      (c.window.detectionMode = "dbus" ∨ c.window.detectionMode = "polling") := by
    rw [List.elem_iff]
    simp
  by_cases h1 : c.logging.level = "trace" ∨ c.logging.level = "debug" ∨
      c.logging.level = "info" ∨ c.logging.level = "warn" ∨ c.logging.level = "error"
  case neg =>
    rw [if_pos h1]
    have b1f := Bool.eq_false_iff.mpr (fun hb => h1 (e1.mp hb))
    constructor
    · intro h; exact Except.noConfusion h
    · intro h; rw [b1f] at h; simp at h
  case pos =>
  rw [if_neg (not_not_intro h1), e1.mpr h1, Bool.true_and]
  by_cases h2 : c.logging.format = "pretty" ∨ c.logging.format = "json"
  case neg =>
    rw [if_pos h2]
    have b2f := Bool.eq_false_iff.mpr (fun hb => h2 (e2.mp hb))
    constructor
    · intro h; exact Except.noConfusion h
    · intro h; rw [b2f] at h; simp at h
  case pos =>
  rw [if_neg (not_not_intro h2), e2.mpr h2, Bool.true_and]
  by_cases h3 : c.repeatCfg.repeatDelayMs = 0
  case pos =>
    rw [if_pos h3]
    constructor
    · intro h; exact Except.noConfusion h
    · intro h; rw [(by simp [h3] : decide (c.repeatCfg.repeatDelayMs ≠ 0) = false)] at h
      simp at h
  case neg =>
  rw [if_neg h3, (by simp [h3] : decide (c.repeatCfg.repeatDelayMs ≠ 0) = true)]
  by_cases h4 : c.window.detectionMode = "dbus" ∨ c.window.detectionMode = "polling"
  case neg =>
    rw [if_pos h4]
    have b4f := Bool.eq_false_iff.mpr (fun hb => h4 (e3.mp hb))
    constructor
    · intro h; exact Except.noConfusion h
    · intro h; rw [b4f] at h; simp at h
  case pos =>
  rw [if_neg (not_not_intro h4), e3.mpr h4]
  by_cases h5 : c.window.pollingIntervalMs < 100
  case pos =>
    rw [if_pos h5]
    constructor
    · intro h; exact Except.noConfusion h
    · intro h
      rw [(by simp [Nat.not_le_of_lt h5] : decide (100 ≤ c.window.pollingIntervalMs) = false)]
        at h
      simp at h
  case neg =>
  rw [if_neg h5,
    (by simp [Nat.le_of_not_lt h5] : decide (100 ≤ c.window.pollingIntervalMs) = true)]
  simp only [Bool.true_and]
  rw [validateMappings_ok c.mappings 0]
  simp only [List.all_eq_true, Bool.and_eq_true, Bool.not_eq_true']
  constructor
  · intro h
    exact ⟨fun m hm => (h m hm).2, fun m hm => (h m hm).1⟩
  · intro h m hm
    exact ⟨h.2 m hm, h.1 m hm⟩

theorem validate_ok_iff_amended_witness :
    Config.validate cfgSpace = Except.ok () ∧ validatePassAmended cfgSpace = true :=
  ⟨(validate_ok_iff_amended cfgSpace).mpr (by decide), by decide⟩

/-! ### Keyboard events (src/events/keyboard.rs) -/

/-- `KeyState` in src/events/keyboard.rs. -/
inductive KeyState where
  | Pressed
  | Released
  | Repeat
deriving DecidableEq, Repr

/-- `Modifiers` in src/events/keyboard.rs: a bitmask with
ctrl = 1, alt = 2, shift = 4, super = 8. -/
structure Modifiers where
  bits : Nat
deriving DecidableEq, Repr

/-- `Modifiers::to_vec`: the pressed-modifier names in ctrl, alt, shift,
super order. -/
def Modifiers.toVec (m : Modifiers) : List String :=
  (if m.bits &&& 1 ≠ 0 then ["ctrl"] else []) ++
  (if m.bits &&& 2 ≠ 0 then ["alt"] else []) ++
  (if m.bits &&& 4 ≠ 0 then ["shift"] else []) ++
  (if m.bits &&& 8 ≠ 0 then ["super"] else [])

/-- `KeyEvent` in src/events/keyboard.rs (the timestamp, which nothing in the
scheduler reads, is omitted). -/
structure KeyEvent where
  keyCode : Nat
  state : KeyState
  modifiers : Modifiers
  deviceId : Nat
deriving DecidableEq, Repr

/-- `KeyEvent::key_only_hash`: a hash of the key code alone — deliberately
excluding modifiers and state.  `hKC` is the 64-bit `DefaultHasher` made
explicit. -/
def KeyEvent.keyOnlyHash (hKC : Nat → Nat) (e : KeyEvent) : Nat :=
  hKC e.keyCode

/-- `VirtualKeyEvent` in src/events/mod.rs (timestamp omitted). -/
structure VirtualKeyEvent where
  keyCode : Nat
  state : KeyState
  modifiers : Modifiers
deriving DecidableEq, Repr

/-- `VirtualKeyEvent::press`. -/
def VirtualKeyEvent.press (keyCode : Nat) (modifiers : Modifiers) : VirtualKeyEvent :=
  ⟨keyCode, KeyState.Pressed, modifiers⟩

/-- `VirtualKeyEvent::release`. -/
def VirtualKeyEvent.release (keyCode : Nat) (modifiers : Modifiers) : VirtualKeyEvent :=
  ⟨keyCode, KeyState.Released, modifiers⟩

/-! ### Decision cache (src/services/key_repeater.rs) -/

/-- `CacheKey` in src/services/key_repeater.rs: the structural decision-cache
key. -/
structure CacheKey where
  keyNameHash : Nat
  modifiersBits : Nat
  titleHash : Nat
  patternsHash : Nat
deriving DecidableEq, Repr

/-- `KeyRepeater::modifiers_to_bits`. -/
def modifiersToBits (modifiers : List String) : Nat :=
  modifiers.foldl
    (fun bits m =>
      if m = "ctrl" then bits ||| 1
      else if m = "alt" then bits ||| 2
      else if m = "shift" then bits ||| 4
      else if m = "super" then bits ||| 8
      else bits) 0

/-- The window state read by the cache: the two content hashes and the
lower-cased title held by `DefaultWindowContext`
(src/services/window_context.rs). -/
structure WindowCtx where
  titleHash : Nat
  patternsHash : Nat
  titleLower : String
deriving DecidableEq, Repr

/-- The `CacheKey` built at the top of `KeyRepeater::should_repeat_cached`;
`hKey` is the `DefaultHasher` over the key name made explicit. -/
def mkCacheKey (hKey : String → Nat) (keyName : String) (modifiers : List String)
    (ctx : WindowCtx) : CacheKey :=
  ⟨hKey keyName, modifiersToBits modifiers, ctx.titleHash, ctx.patternsHash⟩

/-- Lookup in the decision cache (`DashMap::get` keyed by `CacheKey`). -/
def cacheLookup : List (CacheKey × Bool) → CacheKey → Option Bool
  | [], _ => none
  | (k', v) :: rest, k => if k' = k then some v else cacheLookup rest k

/-- `KeyRepeater::should_repeat_cached` (src/services/key_repeater.rs lines
56-84): build the structural cache key, return a hit, otherwise compute
`should_repeat_key` on the cached lower-cased title and insert the result.
Returns the decision together with the updated cache. -/
def shouldRepeatCached (hKey : String → Nat) (cfg : Config)
    (cache : List (CacheKey × Bool)) (ctx : WindowCtx) (keyName : String)
    (modifiers : List String) : Bool × List (CacheKey × Bool) :=
  let cacheKey := mkCacheKey hKey keyName modifiers ctx
  match cacheLookup cache cacheKey with
  | some result => (result, cache)
  | none =>
    let result := cfg.shouldRepeatKey keyName modifiers ctx.titleLower
    (result, (cacheKey, result) :: cache)

/-- Entries whose key differs from the looked-up key never influence a
lookup. -/
theorem cacheLookup_filter_ne (cache : List (CacheKey × Bool)) (k dead : CacheKey)
    (hne : k ≠ dead) :
    cacheLookup (cache.filter (fun e => e.1 != dead)) k = cacheLookup cache k := by
  induction cache with
  | nil => rfl
  | cons e rest ih =>
    rcases e with ⟨k', v⟩
    by_cases hk : k' = dead
    · subst hk
      rw [List.filter_cons_of_neg (by simp)]
      rw [ih]
      simp only [cacheLookup]
      rw [if_neg (fun h => hne h.symm)]
    · rw [List.filter_cons_of_pos (by simpa using hk)]
      simp only [cacheLookup]
      by_cases hkk : k' = k
      · rw [if_pos hkk, if_pos hkk]
      · rw [if_neg hkk, if_neg hkk, ih]

/-- Claim C2: decision-cache exactness.  A cache entry whose key disagrees
with the current parameters in any hash component — key-name hash, modifier
bits, title hash or patterns hash — is unreachable: removing all such entries
does not change the decision returned.  In particular, once the title hash or
the patterns hash has changed, every entry cached under the old value is dead. -/
theorem decision_cache_exactness (hKey : String → Nat) (cfg : Config)
    (cache : List (CacheKey × Bool)) (ctx : WindowCtx) (keyName : String)
    (modifiers : List String) (dead : CacheKey)
    (hdiff : dead.titleHash ≠ ctx.titleHash ∨ dead.patternsHash ≠ ctx.patternsHash ∨
      dead.keyNameHash ≠ hKey keyName ∨ dead.modifiersBits ≠ modifiersToBits modifiers) :
    (shouldRepeatCached hKey cfg (cache.filter (fun e => e.1 != dead)) ctx keyName
        modifiers).1 =
      (shouldRepeatCached hKey cfg cache ctx keyName modifiers).1 := by
  have hne : mkCacheKey hKey keyName modifiers ctx ≠ dead := by
    intro h
    rcases hdiff with h1 | h1 | h1 | h1 <;> exact h1 (by rw [← h] ; rfl)
  simp only [shouldRepeatCached]
  rw [cacheLookup_filter_ne cache (mkCacheKey hKey keyName modifiers ctx) dead hne]
  rcases cacheLookup cache (mkCacheKey hKey keyName modifiers ctx) with _ | r <;> rfl

theorem decision_cache_exactness_witness :
    (shouldRepeatCached (fun _ => 0) cfgSpace
        ([((⟨0, 0, 5, 0⟩ : CacheKey), false)].filter
          (fun e => e.1 != (⟨0, 0, 5, 0⟩ : CacheKey)))
        ⟨0, 0, ""⟩ "space" []).1 =
      (shouldRepeatCached (fun _ => 0) cfgSpace [((⟨0, 0, 5, 0⟩ : CacheKey), false)]
        ⟨0, 0, ""⟩ "space" []).1 :=
  decision_cache_exactness (fun _ => 0) cfgSpace [(⟨0, 0, 5, 0⟩, false)]
    ⟨0, 0, ""⟩ "space" [] ⟨0, 0, 5, 0⟩ (by decide)

/-- A cache hit returns the stored value and leaves the cache unchanged. -/
theorem shouldRepeatCached_of_hit (hKey : String → Nat) (cfg : Config)
    (cache : List (CacheKey × Bool)) (ctx : WindowCtx) (keyName : String)
    (modifiers : List String) (r : Bool)
    (h : cacheLookup cache (mkCacheKey hKey keyName modifiers ctx) = some r) :
    shouldRepeatCached hKey cfg cache ctx keyName modifiers = (r, cache) := by
  simp only [shouldRepeatCached, h]

/-- After any call, the cache holds the returned decision under the
structural key of that call. -/
theorem shouldRepeatCached_lookup_post (hKey : String → Nat) (cfg : Config)
    (cache : List (CacheKey × Bool)) (ctx : WindowCtx) (keyName : String)
    (modifiers : List String) :
    cacheLookup (shouldRepeatCached hKey cfg cache ctx keyName modifiers).2
        (mkCacheKey hKey keyName modifiers ctx) =
      some (shouldRepeatCached hKey cfg cache ctx keyName modifiers).1 := by
  rcases hl : cacheLookup cache (mkCacheKey hKey keyName modifiers ctx) with _ | r
  · simp only [shouldRepeatCached, hl]
    simp [cacheLookup]
  · simp only [shouldRepeatCached, hl]

/-- Claim C7: cache idempotence.  Two successive calls with identical key,
modifiers, title and pattern set return the same boolean; the second call
leaves the cache untouched and is answered by a cache hit (so the underlying
`should_repeat_key` computation is not re-invoked). -/
theorem decision_cache_idempotent (hKey : String → Nat) (cfg : Config)
    (cache : List (CacheKey × Bool)) (ctx : WindowCtx) (keyName : String)
    (modifiers : List String) :
    (shouldRepeatCached hKey cfg
        (shouldRepeatCached hKey cfg cache ctx keyName modifiers).2 ctx keyName
        modifiers).1 =
      (shouldRepeatCached hKey cfg cache ctx keyName modifiers).1 ∧
    (shouldRepeatCached hKey cfg
        (shouldRepeatCached hKey cfg cache ctx keyName modifiers).2 ctx keyName
        modifiers).2 =
      (shouldRepeatCached hKey cfg cache ctx keyName modifiers).2 ∧
    cacheLookup (shouldRepeatCached hKey cfg cache ctx keyName modifiers).2
        (mkCacheKey hKey keyName modifiers ctx) =
      some (shouldRepeatCached hKey cfg cache ctx keyName modifiers).1 := by
  have hpost := shouldRepeatCached_lookup_post hKey cfg cache ctx keyName modifiers
  have hsecond := shouldRepeatCached_of_hit hKey cfg
    (shouldRepeatCached hKey cfg cache ctx keyName modifiers).2 ctx keyName modifiers
    (shouldRepeatCached hKey cfg cache ctx keyName modifiers).1 hpost
  exact ⟨by rw [hsecond], by rw [hsecond], hpost⟩

/-! ### Repeat scheduler (src/services/key_repeater.rs)

The scheduler state is the `KeyRepeater` fields that key-event handling
reads and writes: the `active_repeaters` map, the decision cache, the window
context and the `repetition_enabled` flag.  Each handler returns the new
state together with the list of `VirtualKeyEvent`s sent to the virtual
device, in emission order.  The asynchronous tick emissions of a running
`repeater_task` are real-time behaviour outside this per-event model; a
task's timer is running exactly while its entry is in the map (inserted by
`start_repeater`, aborted on removal). -/

/-- `RepeaterTask` in src/services/key_repeater.rs: the key code and
modifiers captured at press time (the `JoinHandle` is represented by the
entry's presence in the map). -/
structure RepeaterTask where
  keyCode : Nat
  modifiers : Modifiers
deriving DecidableEq, Repr

/-- The `active_repeaters` map from key-only hash to task
(`DashMap<u64, RepeaterTask>`). -/
abbrev TaskMap := List (Nat × RepeaterTask)

/-- `DashMap::contains_key`. -/
def taskContains (m : TaskMap) (h : Nat) : Bool :=
  m.any (fun p => p.1 == h)

/-- `DashMap::insert` (replace semantics). -/
def taskInsert (m : TaskMap) (h : Nat) (t : RepeaterTask) : TaskMap :=
  (h, t) :: m.filter (fun p => p.1 != h)

/-- `DashMap::remove`. -/
def taskRemove (m : TaskMap) (h : Nat) : TaskMap :=
  m.filter (fun p => p.1 != h)

/-- The environment a `KeyRepeater` closes over: the two `DefaultHasher`
functions (over key names and key codes), the static
`KeyNameToEvdevCode::reverse_translate` table, and the immutable
configuration. -/
structure Env where
  hKey : String → Nat
  hKC : Nat → Nat
  hTitle : String → Nat
  rt : Nat → Option String
  cfg : Config

/-- The mutable `KeyRepeater` state. -/
structure RepState where
  active : TaskMap
  cache : List (CacheKey × Bool)
  ctx : WindowCtx
  enabled : Bool

/-- `KeyRepeater::stop_all_repeaters_gracefully` (lines 331-361): early
return when no task is active; otherwise send one release per active task
(carrying that task's key code and modifiers), abort every task and clear
the registry. -/
def stopAllRepeatersGracefully (s : RepState) : RepState × List VirtualKeyEvent :=
  if s.active.isEmpty then (s, [])
  else
    ({ s with active := [] },
      s.active.map (fun p => VirtualKeyEvent.release p.2.keyCode p.2.modifiers))

/-- `KeyRepeater::handle_key_press` (lines 212-241): always forward the
original press first; then start a repeater only if none is active for the
key-only hash. -/
def handleKeyPress (env : Env) (s : RepState) (e : KeyEvent) :
    RepState × List VirtualKeyEvent :=
  let keyHash := e.keyOnlyHash env.hKC
  let pressEvent := VirtualKeyEvent.press e.keyCode e.modifiers
  if taskContains s.active keyHash then (s, [pressEvent])
  else
    ({ s with active := taskInsert s.active keyHash ⟨e.keyCode, e.modifiers⟩ },
      [pressEvent])

/-- `KeyRepeater::handle_key_release` (lines 244-266): stop the repeater for
the key-only hash if one is active, then forward the original release. -/
def handleKeyRelease (env : Env) (s : RepState) (e : KeyEvent) :
    RepState × List VirtualKeyEvent :=
  let keyHash := e.keyOnlyHash env.hKC
  let s1 := if taskContains s.active keyHash
    then { s with active := taskRemove s.active keyHash } else s
  (s1, [VirtualKeyEvent.release e.keyCode e.modifiers])

/-- The toggle-key test at the top of `KeyRepeater::handle_key_event`
(lines 112-139): a toggle key is configured, the key code reverse-translates
to its name, and the event is a press. -/
def isToggleEvent (env : Env) (e : KeyEvent) : Bool :=
  match env.cfg.repeatCfg.repeatToggleKey, env.rt e.keyCode with
  | some toggleKey, some keyName => keyName == toggleKey && e.state == KeyState.Pressed
  | _, _ => false

/-- The unmodified passthrough of an event
(the `match event.state` at lines 195-201). -/
def passthroughEvent (e : KeyEvent) : VirtualKeyEvent :=
  ⟨e.keyCode, e.state, e.modifiers⟩

/-- The `should_repeat` decision computed inside `handle_key_event`
(lines 142-176): false when the key code has no name or repetition is
disabled, otherwise the cached decision. -/
def decisionOf (env : Env) (s : RepState) (e : KeyEvent) : Bool :=
  match env.rt e.keyCode with
  | none => false
  | some keyName =>
    if !s.enabled then false
    else (shouldRepeatCached env.hKey env.cfg s.cache s.ctx keyName e.modifiers.toVec).1

/-- `KeyRepeater::handle_key_event` (lines 108-209).  A toggle-key press
flips the enabled flag, gracefully stops everything when turning off, and
forwards the press; otherwise the decision is computed (updating the cache
when it is actually consulted), repeatable presses/releases go to the
dedicated handlers, repeatable hardware repeats are swallowed, and
everything else is passed through unmodified. -/
def handleKeyEvent (env : Env) (s : RepState) (e : KeyEvent) :
    RepState × List VirtualKeyEvent :=
  if isToggleEvent env e then
    let newState := !s.enabled
    let s1 := { s with enabled := newState }
    let stopped := if !newState then stopAllRepeatersGracefully s1 else (s1, [])
    (stopped.1, stopped.2 ++ [VirtualKeyEvent.press e.keyCode e.modifiers])
  else
    match env.rt e.keyCode with
    | none => (s, [passthroughEvent e])
    | some keyName =>
      if !s.enabled then (s, [passthroughEvent e])
      else
        let cached := shouldRepeatCached env.hKey env.cfg s.cache s.ctx keyName
          e.modifiers.toVec
        let s1 := { s with cache := cached.2 }
        if cached.1 then
          match e.state with
          | KeyState.Pressed => handleKeyPress env s1 e
          | KeyState.Released => handleKeyRelease env s1 e
          | KeyState.Repeat => (s1, [])
        else (s1, [passthroughEvent e])

/-- `DefaultWindowContext::update_title` (src/services/window_context.rs):
store the new title hash; refresh the cached lower-cased title only when the
hash actually changed. -/
def updateTitle (hTitle : String → Nat) (ctx : WindowCtx) (title : String) : WindowCtx :=
  let newHash := hTitle title
  { titleHash := newHash
    patternsHash := ctx.patternsHash
    titleLower := if ctx.titleHash ≠ newHash then strLower title else ctx.titleLower }

/-- `KeyRepeater::handle_window_event` (lines 269-282): refresh the window
context from the new title, then gracefully stop all repeaters. -/
def handleWindowEvent (env : Env) (s : RepState) (title : String) :
    RepState × List VirtualKeyEvent :=
  stopAllRepeatersGracefully { s with ctx := updateTitle env.hTitle s.ctx title }

/-- One input consumed by the scheduler: a keyboard event or a window focus
change (delivering the new title). -/
inductive InEvent where
  | key : KeyEvent → InEvent
  | window : String → InEvent

/-- One scheduler step on an input. -/
def stepEvent (env : Env) (s : RepState) : InEvent → RepState
  | InEvent.key e => (handleKeyEvent env s e).1
  | InEvent.window t => (handleWindowEvent env s t).1

/-- The scheduler state after consuming a whole input trace. -/
def runEvents (env : Env) (s : RepState) : List InEvent → RepState
  | [] => s
  | ev :: evs => runEvents env (stepEvent env s ev) evs

/-! ### Facts about the task registry -/

/-- The registry keys are pairwise distinct (the `DashMap` key invariant). -/
def keysNodup (m : TaskMap) : Prop :=
  (m.map Prod.fst).Nodup

/-- Number of registry entries under a given key-only hash. -/
def tasksFor (m : TaskMap) (h : Nat) : Nat :=
  (m.filter (fun p => p.1 == h)).length

theorem tasksFor_insert (m : TaskMap) (h : Nat) (t : RepeaterTask) :
    tasksFor (taskInsert m h t) h = 1 := by
  unfold tasksFor taskInsert
  rw [List.filter_cons_of_pos (by simp)]
  have hnil : ((m.filter (fun p => p.1 != h)).filter (fun p => p.1 == h)) = [] := by
    rw [List.filter_filter, List.filter_eq_nil_iff]
    intro a _
    simp only [Bool.and_eq_true, beq_iff_eq, bne_iff_ne, ne_eq]
    rintro ⟨h1, h2⟩
    exact h2 h1
  rw [hnil]
  rfl

theorem tasksFor_remove (m : TaskMap) (h : Nat) :
    tasksFor (taskRemove m h) h = 0 := by
  unfold tasksFor taskRemove
  rw [List.filter_filter, List.filter_eq_nil_iff.mpr ?_]
  · rfl
  · intro a _
    simp only [Bool.and_eq_true, beq_iff_eq, bne_iff_ne, ne_eq]
    rintro ⟨h1, h2⟩
    exact h2 h1

theorem tasksFor_eq_zero_of_not_contains (m : TaskMap) (h : Nat)
    (hc : taskContains m h = false) : tasksFor m h = 0 := by
  unfold taskContains at hc
  unfold tasksFor
  rw [List.filter_eq_nil_iff.mpr ?_]
  · rfl
  · intro a ha
    exact (List.any_eq_false.mp hc) a ha

theorem tasksFor_of_contains_nodup (m : TaskMap) (h : Nat)
    (hnd : keysNodup m) (hc : taskContains m h = true) : tasksFor m h = 1 := by
  induction m with
  | nil => exact Bool.noConfusion hc
  | cons p rest ih =>
    rcases p with ⟨k, t⟩
    have hnd' : keysNodup rest := by
      unfold keysNodup at hnd ⊢
      exact (List.nodup_cons.mp hnd).2
    have hknotin : k ∉ rest.map Prod.fst := (List.nodup_cons.mp hnd).1
    by_cases hk : k = h
    · subst hk
      have hrest : taskContains rest k = false := by
        unfold taskContains
        rw [List.any_eq_false]
        intro a ha
        simp only [beq_iff_eq]
        intro hak
        exact hknotin (hak ▸ List.mem_map_of_mem Prod.fst ha)
      unfold tasksFor
      rw [List.filter_cons_of_pos (by simp)]
      have := tasksFor_eq_zero_of_not_contains rest k hrest
      unfold tasksFor at this
      rw [List.length_cons, this]
    · have hc' : taskContains rest h = true := by
        unfold taskContains at hc ⊢
        simp only [List.any_cons, beq_iff_eq] at hc
        rcases Bool.or_eq_true_iff.mp hc with h1 | h1
        · exact absurd (by simpa using h1) hk
        · exact h1
      unfold tasksFor
      rw [List.filter_cons_of_neg (by simpa using hk)]
      exact ih hnd' hc'

theorem taskContains_insert (m : TaskMap) (h : Nat) (t : RepeaterTask) :
    taskContains (taskInsert m h t) h = true := by
  simp [taskContains, taskInsert]

theorem keysNodup_insert (m : TaskMap) (h : Nat) (t : RepeaterTask)
    (hnd : keysNodup m) : keysNodup (taskInsert m h t) := by
  unfold keysNodup taskInsert
  rw [List.map_cons, List.nodup_cons]
  constructor
  · intro hmem
    rcases List.mem_map.mp hmem with ⟨p, hp, hfst⟩
    have := List.of_mem_filter hp
    rw [hfst] at this
    simp at this
  · exact List.Nodup.sublist ((List.filter_sublist m).map Prod.fst) hnd

theorem keysNodup_remove (m : TaskMap) (h : Nat) (hnd : keysNodup m) :
    keysNodup (taskRemove m h) := by
  unfold keysNodup taskRemove
  exact List.Nodup.sublist ((List.filter_sublist m).map Prod.fst) hnd

theorem keysNodup_nil : keysNodup [] := List.nodup_nil

/-! ### Branch characterisations of the event handlers -/

theorem handleKeyPress_spec (env : Env) (s : RepState) (e : KeyEvent) :
    handleKeyPress env s e =
      ({ s with active := if taskContains s.active (e.keyOnlyHash env.hKC)
            then s.active
            else taskInsert s.active (e.keyOnlyHash env.hKC) ⟨e.keyCode, e.modifiers⟩ },
        [VirtualKeyEvent.press e.keyCode e.modifiers]) := by
  unfold handleKeyPress
  by_cases h : taskContains s.active (e.keyOnlyHash env.hKC) <;> simp [h]

theorem handleKeyRelease_spec (env : Env) (s : RepState) (e : KeyEvent) :
    handleKeyRelease env s e =
      ({ s with active := if taskContains s.active (e.keyOnlyHash env.hKC)
            then taskRemove s.active (e.keyOnlyHash env.hKC)
            else s.active },
        [VirtualKeyEvent.release e.keyCode e.modifiers]) := by
  unfold handleKeyRelease
  by_cases h : taskContains s.active (e.keyOnlyHash env.hKC) <;> simp [h]

theorem step_toggle (env : Env) (s : RepState) (e : KeyEvent)
    (htog : isToggleEvent env e = true) :
    handleKeyEvent env s e =
      ((if s.enabled then stopAllRepeatersGracefully { s with enabled := !s.enabled }
        else ({ s with enabled := !s.enabled }, [])).1,
       (if s.enabled then stopAllRepeatersGracefully { s with enabled := !s.enabled }
        else ({ s with enabled := !s.enabled }, [])).2 ++
         [VirtualKeyEvent.press e.keyCode e.modifiers]) := by
  simp only [handleKeyEvent, htog, if_true, Bool.not_not]

theorem step_rt_none (env : Env) (s : RepState) (e : KeyEvent)
    (htog : isToggleEvent env e = false) (hrt : env.rt e.keyCode = none) :
    handleKeyEvent env s e = (s, [passthroughEvent e]) := by
  simp only [handleKeyEvent, htog, Bool.false_eq_true, if_false, hrt]

theorem step_disabled (env : Env) (s : RepState) (e : KeyEvent)
    (htog : isToggleEvent env e = false) (hen : s.enabled = false) :
    handleKeyEvent env s e = (s, [passthroughEvent e]) := by
  simp only [handleKeyEvent, htog, Bool.false_eq_true, if_false]
  rcases hrt : env.rt e.keyCode with _ | kn
  · rfl
  · simp only [hen, Bool.not_false, if_true]

theorem step_enabled (env : Env) (s : RepState) (e : KeyEvent) (kn : String)
    (htog : isToggleEvent env e = false) (hrt : env.rt e.keyCode = some kn)
    (hen : s.enabled = true) :
    handleKeyEvent env s e =
      (if (shouldRepeatCached env.hKey env.cfg s.cache s.ctx kn e.modifiers.toVec).1 then
        match e.state with
        | KeyState.Pressed => handleKeyPress env
            { s with cache :=
              (shouldRepeatCached env.hKey env.cfg s.cache s.ctx kn e.modifiers.toVec).2 } e
        | KeyState.Released => handleKeyRelease env
            { s with cache :=
              (shouldRepeatCached env.hKey env.cfg s.cache s.ctx kn e.modifiers.toVec).2 } e
        | KeyState.Repeat =>
            ({ s with cache :=
              (shouldRepeatCached env.hKey env.cfg s.cache s.ctx kn e.modifiers.toVec).2 }, [])
      else
        ({ s with cache :=
            (shouldRepeatCached env.hKey env.cfg s.cache s.ctx kn e.modifiers.toVec).2 },
          [passthroughEvent e])) := by
  simp only [handleKeyEvent, htog, Bool.false_eq_true, if_false, hrt, hen, Bool.not_true,
    if_false]

/-- The decision expression under a translated key name with repetition
enabled. -/
theorem decisionOf_eq (env : Env) (s : RepState) (e : KeyEvent) (kn : String)
    (hrt : env.rt e.keyCode = some kn) (hen : s.enabled = true) :
    decisionOf env s e =
      (shouldRepeatCached env.hKey env.cfg s.cache s.ctx kn e.modifiers.toVec).1 := by
  simp only [decisionOf, hrt, hen, Bool.not_true, Bool.false_eq_true, if_false]

/-- Re-querying the cache returned by a call, with the same parameters,
gives the same decision and the same cache. -/
theorem shouldRepeatCached_stable (hKey : String → Nat) (cfg : Config)
    (cache : List (CacheKey × Bool)) (ctx : WindowCtx) (keyName : String)
    (modifiers : List String) :
    shouldRepeatCached hKey cfg (shouldRepeatCached hKey cfg cache ctx keyName modifiers).2
        ctx keyName modifiers =
      ((shouldRepeatCached hKey cfg cache ctx keyName modifiers).1,
       (shouldRepeatCached hKey cfg cache ctx keyName modifiers).2) :=
  shouldRepeatCached_of_hit hKey cfg _ ctx keyName modifiers _
    (shouldRepeatCached_lookup_post hKey cfg cache ctx keyName modifiers)

theorem step_press_true (env : Env) (s : RepState) (e : KeyEvent) (kn : String)
    (htog : isToggleEvent env e = false) (hrt : env.rt e.keyCode = some kn)
    (hen : s.enabled = true)
    (hdec : (shouldRepeatCached env.hKey env.cfg s.cache s.ctx kn e.modifiers.toVec).1 = true)
    (hst : e.state = KeyState.Pressed) :
    handleKeyEvent env s e =
      ({ s with
          cache := (shouldRepeatCached env.hKey env.cfg s.cache s.ctx kn e.modifiers.toVec).2,
          active := if taskContains s.active (e.keyOnlyHash env.hKC) then s.active
            else taskInsert s.active (e.keyOnlyHash env.hKC) ⟨e.keyCode, e.modifiers⟩ },
        [VirtualKeyEvent.press e.keyCode e.modifiers]) := by
  rw [step_enabled env s e kn htog hrt hen]
  simp only [hdec, if_true, hst]
  rw [handleKeyPress_spec]

theorem step_release_true (env : Env) (s : RepState) (e : KeyEvent) (kn : String)
    (htog : isToggleEvent env e = false) (hrt : env.rt e.keyCode = some kn)
    (hen : s.enabled = true)
    (hdec : (shouldRepeatCached env.hKey env.cfg s.cache s.ctx kn e.modifiers.toVec).1 = true)
    (hst : e.state = KeyState.Released) :
    handleKeyEvent env s e =
      ({ s with
          cache := (shouldRepeatCached env.hKey env.cfg s.cache s.ctx kn e.modifiers.toVec).2,
          active := if taskContains s.active (e.keyOnlyHash env.hKC)
            then taskRemove s.active (e.keyOnlyHash env.hKC) else s.active },
        [VirtualKeyEvent.release e.keyCode e.modifiers]) := by
  rw [step_enabled env s e kn htog hrt hen]
  simp only [hdec, if_true, hst]
  rw [handleKeyRelease_spec]

theorem step_decision_false (env : Env) (s : RepState) (e : KeyEvent) (kn : String)
    (htog : isToggleEvent env e = false) (hrt : env.rt e.keyCode = some kn)
    (hen : s.enabled = true)
    (hdec : (shouldRepeatCached env.hKey env.cfg s.cache s.ctx kn e.modifiers.toVec).1 = false) :
    handleKeyEvent env s e =
      ({ s with
          cache := (shouldRepeatCached env.hKey env.cfg s.cache s.ctx kn e.modifiers.toVec).2 },
        [passthroughEvent e]) := by
  rw [step_enabled env s e kn htog hrt hen]
  simp only [hdec, Bool.false_eq_true, if_false]

/-- Every event handler leaves the registry unchanged, clears it, inserts at
the event's key-only hash, or removes at the event's key-only hash. -/
theorem handleKeyEvent_active_cases (env : Env) (s : RepState) (e : KeyEvent) :
    (handleKeyEvent env s e).1.active = s.active ∨
    (handleKeyEvent env s e).1.active = [] ∨
    (handleKeyEvent env s e).1.active =
      taskInsert s.active (e.keyOnlyHash env.hKC) ⟨e.keyCode, e.modifiers⟩ ∨
    (handleKeyEvent env s e).1.active =
      taskRemove s.active (e.keyOnlyHash env.hKC) := by
  rcases htog : isToggleEvent env e with _ | _
  · rcases hrt : env.rt e.keyCode with _ | kn
    · left
      rw [step_rt_none env s e htog hrt]
    · rcases hen : s.enabled with _ | _
      · left
        rw [step_disabled env s e htog hen]
      · rcases hdec : (shouldRepeatCached env.hKey env.cfg s.cache s.ctx kn
            e.modifiers.toVec).1 with _ | _
        · left
          rw [step_decision_false env s e kn htog hrt hen hdec]
        · rcases hst : e.state with _ | _ | _
          · rw [step_press_true env s e kn htog hrt hen hdec hst]
            by_cases hcont : taskContains s.active (e.keyOnlyHash env.hKC)
            · left
              simp [hcont]
            · right; right; left
              simp [hcont]
          · rw [step_release_true env s e kn htog hrt hen hdec hst]
            by_cases hcont : taskContains s.active (e.keyOnlyHash env.hKC)
            · right; right; right
              simp [hcont]
            · left
              simp [hcont]
          · left
            rw [step_enabled env s e kn htog hrt hen]
            simp only [hdec, if_true, hst]
  · rw [step_toggle env s e htog]
    rcases hen : s.enabled with _ | _
    · left
      simp [hen]
    · rcases hact : s.active with _ | ⟨p, rest⟩
      · left
        simp [hen, stopAllRepeatersGracefully, hact]
      · right; left
        simp [hen, stopAllRepeatersGracefully, hact]

/-- Handling one key event preserves registry key-distinctness. -/
theorem keysNodup_step (env : Env) (s : RepState) (e : KeyEvent)
    (hnd : keysNodup s.active) : keysNodup (handleKeyEvent env s e).1.active := by
  rcases handleKeyEvent_active_cases env s e with h | h | h | h <;> rw [h]
  · exact hnd
  · exact keysNodup_nil
  · exact keysNodup_insert _ _ _ hnd
  · exact keysNodup_remove _ _ hnd

/-- Handling one window event preserves registry key-distinctness. -/
theorem keysNodup_window_step (env : Env) (s : RepState) (t : String)
    (hnd : keysNodup s.active) : keysNodup (handleWindowEvent env s t).1.active := by
  unfold handleWindowEvent stopAllRepeatersGracefully
  by_cases h : s.active.isEmpty
  · rw [if_pos h]
    exact hnd
  · rw [if_neg h]
    exact keysNodup_nil

/-- Registry key-distinctness holds along every input trace. -/
theorem runEvents_keysNodup (env : Env) (evs : List InEvent) :
    ∀ s : RepState, keysNodup s.active → keysNodup (runEvents env s evs).active := by
  induction evs with
  | nil => intro s h; exact h
  | cons ev rest ih =>
    intro s h
    unfold runEvents
    apply ih
    rcases ev with e | t
    · exact keysNodup_step env s e h
    · exact keysNodup_window_step env s t h

/-- Claim C3: task uniqueness.  The registry never holds two tasks under one
key-only hash: key-distinctness is preserved by every event and so holds at
every state reachable from the empty initial registry; a press for a key
whose hash already has an active task leaves the registry unchanged (no new
timer); and with a true decision, one press — and equally two consecutive
presses with no intervening release — leaves exactly one active task for
that key. -/
theorem repeater_task_uniqueness (env : Env) (s : RepState) (e : KeyEvent) :
    (keysNodup s.active → keysNodup (handleKeyEvent env s e).1.active) ∧
    (∀ (evs : List InEvent) (ctx0 : WindowCtx),
      keysNodup (runEvents env ⟨[], [], ctx0, true⟩ evs).active) ∧
    (e.state = KeyState.Pressed → isToggleEvent env e = false →
      taskContains s.active (e.keyOnlyHash env.hKC) = true →
      (handleKeyEvent env s e).1.active = s.active) ∧
    (e.state = KeyState.Pressed → isToggleEvent env e = false →
      keysNodup s.active → decisionOf env s e = true →
      tasksFor (handleKeyEvent env s e).1.active (e.keyOnlyHash env.hKC) = 1 ∧
      tasksFor (handleKeyEvent env (handleKeyEvent env s e).1 e).1.active
        (e.keyOnlyHash env.hKC) = 1) := by
  refine ⟨fun hnd => keysNodup_step env s e hnd,
    fun evs ctx0 => runEvents_keysNodup env evs ⟨[], [], ctx0, true⟩ keysNodup_nil,
    ?_, ?_⟩
  · intro hst htog hcont
    rcases hrt : env.rt e.keyCode with _ | kn
    · rw [step_rt_none env s e htog hrt]
    · rcases hen : s.enabled with _ | _
      · rw [step_disabled env s e htog hen]
      · rcases hdec : (shouldRepeatCached env.hKey env.cfg s.cache s.ctx kn
            e.modifiers.toVec).1 with _ | _
        · rw [step_decision_false env s e kn htog hrt hen hdec]
        · rw [step_press_true env s e kn htog hrt hen hdec hst]
          simp [hcont]
  · intro hst htog hnd hdec
    rcases hrt : env.rt e.keyCode with _ | kn
    · simp [decisionOf, hrt] at hdec
    · rcases hen : s.enabled with _ | _
      · simp [decisionOf, hrt, hen] at hdec
      · have hdec' : (shouldRepeatCached env.hKey env.cfg s.cache s.ctx kn
            e.modifiers.toVec).1 = true := by
          rw [decisionOf_eq env s e kn hrt hen] at hdec
          exact hdec
        have h1 := step_press_true env s e kn htog hrt hen hdec' hst
        have hcount1 : tasksFor (handleKeyEvent env s e).1.active
            (e.keyOnlyHash env.hKC) = 1 := by
          rw [h1]
          by_cases hcont : taskContains s.active (e.keyOnlyHash env.hKC)
          · simpa [hcont] using tasksFor_of_contains_nodup _ _ hnd hcont
          · have hcont' : taskContains s.active (e.keyOnlyHash env.hKC) = false :=
              Bool.eq_false_iff.mpr hcont
            simp [hcont', tasksFor_insert]
        refine ⟨hcount1, ?_⟩
        have hcont2 : taskContains (handleKeyEvent env s e).1.active
            (e.keyOnlyHash env.hKC) = true := by
          rw [h1]
          by_cases hcont : taskContains s.active (e.keyOnlyHash env.hKC)
          · simp [hcont]
          · have hcont' : taskContains s.active (e.keyOnlyHash env.hKC) = false :=
              Bool.eq_false_iff.mpr hcont
            simp [hcont', taskContains_insert]
        have hen2 : (handleKeyEvent env s e).1.enabled = true := by
          rw [h1]
          exact hen
        have hdec2 : (shouldRepeatCached env.hKey env.cfg
            (handleKeyEvent env s e).1.cache (handleKeyEvent env s e).1.ctx kn
            e.modifiers.toVec).1 = true := by
          rw [h1]
          have := congrArg Prod.fst (shouldRepeatCached_stable env.hKey env.cfg s.cache
            s.ctx kn e.modifiers.toVec)
          rw [this]
          exact hdec'
        have h2 := step_press_true env (handleKeyEvent env s e).1 e kn htog hrt hen2
          hdec2 hst
        rw [h2]
        simp only [hcont2, if_true]
        exact hcount1 ▸ rfl

/-- Claim C4: key-only task identity.  The hash used for task lookup and
creation depends only on the key code, never on modifiers or event state;
consequently a press carrying some modifier set followed by a release of the
same key code with any (e.g. empty) modifier set still finds and cancels the
task, leaving zero active tasks for that key. -/
theorem key_only_task_identity (env : Env) (s : RepState) (e1 e2 : KeyEvent) :
    (e1.keyCode = e2.keyCode →
      e1.keyOnlyHash env.hKC = e2.keyOnlyHash env.hKC) ∧
    (e1.keyCode = e2.keyCode → e1.state = KeyState.Pressed →
      e2.state = KeyState.Released →
      isToggleEvent env e1 = false → isToggleEvent env e2 = false →
      keysNodup s.active →
      decisionOf env s e1 = true →
      decisionOf env (handleKeyEvent env s e1).1 e2 = true →
      tasksFor (handleKeyEvent env s e1).1.active (e1.keyOnlyHash env.hKC) = 1 ∧
      tasksFor (handleKeyEvent env (handleKeyEvent env s e1).1 e2).1.active
        (e1.keyOnlyHash env.hKC) = 0) := by
  constructor
  · intro heq
    unfold KeyEvent.keyOnlyHash
    rw [heq]
  · intro heq hst1 hst2 htog1 htog2 hnd hdec1 hdec2
    rcases hrt : env.rt e1.keyCode with _ | kn
    · simp [decisionOf, hrt] at hdec1
    · rcases hen : s.enabled with _ | _
      · simp [decisionOf, hrt, hen] at hdec1
      · have hdec1' : (shouldRepeatCached env.hKey env.cfg s.cache s.ctx kn
            e1.modifiers.toVec).1 = true := by
          rw [decisionOf_eq env s e1 kn hrt hen] at hdec1
          exact hdec1
        have h1 := step_press_true env s e1 kn htog1 hrt hen hdec1' hst1
        have hcount1 : tasksFor (handleKeyEvent env s e1).1.active
            (e1.keyOnlyHash env.hKC) = 1 := by
          rw [h1]
          by_cases hcont : taskContains s.active (e1.keyOnlyHash env.hKC)
          · simpa [hcont] using tasksFor_of_contains_nodup _ _ hnd hcont
          · have hcont' : taskContains s.active (e1.keyOnlyHash env.hKC) = false :=
              Bool.eq_false_iff.mpr hcont
            simp [hcont', tasksFor_insert]
        refine ⟨hcount1, ?_⟩
        have hrt2 : env.rt e2.keyCode = some kn := by
          rw [← heq]
          exact hrt
        have hen2 : (handleKeyEvent env s e1).1.enabled = true := by
          rw [h1]
          exact hen
        rcases hrt2' : env.rt e2.keyCode with _ | kn2
        · rw [hrt2'] at hrt2
          exact Option.noConfusion hrt2
        · have hkn2 : kn2 = kn := by
            rw [hrt2'] at hrt2
            exact Option.some.inj hrt2
          subst hkn2
          have hdec2' : (shouldRepeatCached env.hKey env.cfg
              (handleKeyEvent env s e1).1.cache (handleKeyEvent env s e1).1.ctx kn2
              e2.modifiers.toVec).1 = true := by
            rw [decisionOf_eq env (handleKeyEvent env s e1).1 e2 kn2 hrt2' hen2] at hdec2
            exact hdec2
          have h2 := step_release_true env (handleKeyEvent env s e1).1 e2 kn2 htog2
            hrt2' hen2 hdec2' hst2
          rw [h2]
          have hhash : e2.keyOnlyHash env.hKC = e1.keyOnlyHash env.hKC := by
            unfold KeyEvent.keyOnlyHash
            rw [heq]
          by_cases hcont : taskContains (handleKeyEvent env s e1).1.active
              (e2.keyOnlyHash env.hKC)
          · simp only [hcont, if_true]
            rw [← hhash]
            exact tasksFor_remove _ _
          · have hcont' : taskContains (handleKeyEvent env s e1).1.active
                (e2.keyOnlyHash env.hKC) = false := Bool.eq_false_iff.mpr hcont
            simp only [hcont', Bool.false_eq_true, if_false]
            rw [← hhash]
            exact tasksFor_eq_zero_of_not_contains _ _ (hhash ▸ hcont')

/-- Claim C5: graceful stop.  With N active tasks the global stop emits
exactly N release events — one per task, carrying that task's key code and
modifiers — and leaves the registry empty; with zero active tasks it is a
no-op emitting zero events (hence a second invocation is a no-op). -/
theorem graceful_stop_semantics (s : RepState) :
    (stopAllRepeatersGracefully s).2.length = s.active.length ∧
    (stopAllRepeatersGracefully s).2 =
      s.active.map (fun p => VirtualKeyEvent.release p.2.keyCode p.2.modifiers) ∧
    (stopAllRepeatersGracefully s).1.active = [] ∧
    (s.active = [] → stopAllRepeatersGracefully s = (s, [])) := by
  rcases hact : s.active with _ | ⟨p, rest⟩ <;>
    refine ⟨?_, ?_, ?_, ?_⟩ <;>
    simp [stopAllRepeatersGracefully, hact]

/-- Claim C8: toggle-key semantics.  A press of the configured toggle key
flips the enabled flag without consulting the decision cache or the
mappings, emits the graceful-stop releases exactly when turning repetition
off, then forwards the toggle press unmodified (leaving the registry empty
if it was turning off); and while the flag is off every non-toggle event is
passed through unmodified with the whole state, registry included,
untouched. -/
theorem toggle_key_semantics (env : Env) (s : RepState) (e : KeyEvent) :
    (isToggleEvent env e = true →
      (handleKeyEvent env s e).1.enabled = !s.enabled ∧
      (handleKeyEvent env s e).1.cache = s.cache ∧
      (handleKeyEvent env s e).2 =
        (if s.enabled then
          s.active.map (fun p => VirtualKeyEvent.release p.2.keyCode p.2.modifiers)
         else []) ++ [VirtualKeyEvent.press e.keyCode e.modifiers] ∧
      (s.enabled = true → (handleKeyEvent env s e).1.active = [])) ∧
    (s.enabled = false → isToggleEvent env e = false →
      handleKeyEvent env s e = (s, [passthroughEvent e])) := by
  constructor
  · intro htog
    rw [step_toggle env s e htog]
    rcases hen : s.enabled with _ | _
    · refine ⟨by simp [hen], by simp [hen], by simp [hen], ?_⟩
      intro h
      exact Bool.noConfusion h
    · rcases hact : s.active with _ | ⟨p, rest⟩
      · refine ⟨?_, ?_, ?_, ?_⟩ <;>
          simp [hen, stopAllRepeatersGracefully, hact]
      · refine ⟨?_, ?_, ?_, ?_⟩ <;>
          simp [hen, stopAllRepeatersGracefully, hact]
  · intro hen htog
    exact step_disabled env s e htog hen

/-- Claim C10: every event whose decision is true yields exactly one original
passthrough to the virtual-output sink: a press emits exactly one original
press, whatever the registry holds for that key (a duplicate press skips only
the timer creation), and a release emits exactly one original release even
with no active task. -/
theorem passthrough_exactly_once (env : Env) (s : RepState) (e : KeyEvent)
    (htog : isToggleEvent env e = false) (hdec : decisionOf env s e = true) :
    (e.state = KeyState.Pressed →
      (handleKeyEvent env s e).2 = [VirtualKeyEvent.press e.keyCode e.modifiers]) ∧
    (e.state = KeyState.Released →
      (handleKeyEvent env s e).2 = [VirtualKeyEvent.release e.keyCode e.modifiers]) := by
  rcases hrt : env.rt e.keyCode with _ | kn
  · simp [decisionOf, hrt] at hdec
  · rcases hen : s.enabled with _ | _
    · simp [decisionOf, hrt, hen] at hdec
    · have hdec' : (shouldRepeatCached env.hKey env.cfg s.cache s.ctx kn
          e.modifiers.toVec).1 = true := by
        rw [decisionOf_eq env s e kn hrt hen] at hdec
        exact hdec
      constructor
      · intro hst
        rw [step_press_true env s e kn htog hrt hen hdec' hst]
      · intro hst
        rw [step_release_true env s e kn htog hrt hen hdec' hst]

/-! ### Concrete witness environment -/

/-- A configuration mapping "j" with allowed modifier ctrl, no window
patterns, and "f12" as the toggle key. -/
def cfgSched : Config :=
  ⟨⟨"info", "pretty", "ahk_rust=info"⟩, ⟨"auto"⟩, ⟨50, some "f12"⟩, ⟨"dbus", 1000, []⟩,
   [⟨"j", ["ctrl"]⟩]⟩

/-- A two-entry fragment of the `reverse_translate` table: evdev 36 is "j",
evdev 88 is "f12". -/
def rtEx : Nat → Option String :=
  fun code => if code = 36 then some "j" else if code = 88 then some "f12" else none

/-- Concrete witness environment (hash functions instantiated with simple
total functions). -/
def envEx : Env := ⟨fun _ => 7, fun n => n, fun _ => 0, rtEx, cfgSched⟩

/-- Initial scheduler state: no tasks, empty cache, empty title, enabled. -/
def stEx : RepState := ⟨[], [], ⟨0, 0, ""⟩, true⟩

/-- Press of "j" (evdev 36) with no modifiers. -/
def eJ : KeyEvent := ⟨36, KeyState.Pressed, ⟨0⟩, 0⟩

/-- Press of "j" with ctrl held. -/
def eJCtrl : KeyEvent := ⟨36, KeyState.Pressed, ⟨1⟩, 0⟩

/-- Release of "j" with no modifiers (ctrl already released). -/
def eJRel : KeyEvent := ⟨36, KeyState.Released, ⟨0⟩, 0⟩

/-- Press of the toggle key "f12" (evdev 88). -/
def eF12 : KeyEvent := ⟨88, KeyState.Pressed, ⟨0⟩, 0⟩

theorem repeater_task_uniqueness_witness :
    tasksFor (handleKeyEvent envEx stEx eJ).1.active (eJ.keyOnlyHash envEx.hKC) = 1 ∧
    tasksFor (handleKeyEvent envEx (handleKeyEvent envEx stEx eJ).1 eJ).1.active
      (eJ.keyOnlyHash envEx.hKC) = 1 :=
  (repeater_task_uniqueness envEx stEx eJ).2.2.2 rfl (by decide) keysNodup_nil (by decide)

theorem key_only_task_identity_witness :
    tasksFor (handleKeyEvent envEx stEx eJCtrl).1.active
      (eJCtrl.keyOnlyHash envEx.hKC) = 1 ∧
    tasksFor (handleKeyEvent envEx (handleKeyEvent envEx stEx eJCtrl).1 eJRel).1.active
      (eJCtrl.keyOnlyHash envEx.hKC) = 0 :=
  (key_only_task_identity envEx stEx eJCtrl eJRel).2 rfl rfl rfl (by decide) (by decide)
    keysNodup_nil (by decide) (by decide)

/-- A state with two active repeater tasks. -/
def stTwo : RepState :=
  ⟨[(1, ⟨10, ⟨0⟩⟩), (2, ⟨11, ⟨1⟩⟩)], [], ⟨0, 0, ""⟩, true⟩

theorem graceful_stop_semantics_witness :
    (stopAllRepeatersGracefully stTwo).2.length = 2 ∧
    (stopAllRepeatersGracefully stTwo).1.active = [] ∧
    stopAllRepeatersGracefully stEx = (stEx, []) :=
  ⟨((graceful_stop_semantics stTwo).1).trans (by decide),
   (graceful_stop_semantics stTwo).2.2.1,
   (graceful_stop_semantics stEx).2.2.2 rfl⟩

theorem toggle_key_semantics_witness :
    (handleKeyEvent envEx stEx eF12).1.enabled = !stEx.enabled ∧
    handleKeyEvent envEx { stEx with enabled := false } eJ =
      ({ stEx with enabled := false }, [passthroughEvent eJ]) :=
  ⟨((toggle_key_semantics envEx stEx eF12).1 (by decide)).1,
   (toggle_key_semantics envEx { stEx with enabled := false } eJ).2 rfl (by decide)⟩

theorem passthrough_exactly_once_witness :
    (handleKeyEvent envEx stTwo eJ).2 =
      [VirtualKeyEvent.press eJ.keyCode eJ.modifiers] ∧
    (handleKeyEvent envEx stEx eJRel).2 =
      [VirtualKeyEvent.release eJRel.keyCode eJRel.modifiers] :=
  ⟨(passthrough_exactly_once envEx stTwo eJ (by decide) (by decide)).1 rfl,
   (passthrough_exactly_once envEx stEx eJRel (by decide) (by decide)).2 rfl⟩

end AkrWayland
